import Mathlib

/-!
Verification of the tracksync reconciliation engine: a shallow embedding of
the data model (`model.rs`), the catalog store operations (`db/instance.rs`,
`db/lib.rs`), the sync pipeline (`cmd/sync.rs`), the recovery pass
(`cmd/clean.rs`), the filter contract (`filter/filter.rs`, `cmd/filter.rs`)
and the duplicate detector (`cmd/dupes.rs`), together with theorems settling
the specified properties.
-/

namespace Tracksync

/-! ## SHA-256 (the `sha256` crate's `digest` function, modelled bit-exactly
on `Nat` with explicit reduction mod 2^32) -/

/-- Truncation to a 32-bit word. -/
def w32 (n : Nat) : Nat := n % 4294967296

/-- Right rotation of a 32-bit word by `n` bits. -/
def rotr (n x : Nat) : Nat := w32 ((x >>> n) ||| (x <<< (32 - n)))

/-- SHA-256 round constants (decimal). -/
def shaK : List Nat :=
  [1116352408, 1899447441, 3049323471, 3921009573, 961987163,
   1508970993, 2453635748, 2870763221, 3624381080, 310598401,
   607225278, 1426881987, 1925078388, 2162078206, 2614888103,
   3248222580, 3835390401, 4022224774, 264347078, 604807628,
   770255983, 1249150122, 1555081692, 1996064986, 2554220882,
   2821834349, 2952996808, 3210313671, 3336571891, 3584528711,
   113926993, 338241895, 666307205, 773529912, 1294757372,
   1396182291, 1695183700, 1986661051, 2177026350, 2456956037,
   2730485921, 2820302411, 3259730800, 3345764771, 3516065817,
   3600352804, 4094571909, 275423344, 430227734, 506948616,
   659060556, 883997877, 958139571, 1322822218, 1537002063,
   1747873779, 1955562222, 2024104815, 2227730452, 2361852424,
   2428436474, 2756734187, 3204031479, 3329325298]

/-- SHA-256 initial hash state (decimal). -/
def shaH0 : List Nat :=
  [1779033703, 3144134277, 1013904242, 2773480762,
   1359893119, 2600822924, 528734635, 1541459225]

/-- UTF-8 encoding of one character. -/
def utf8Bytes (c : Char) : List Nat :=
  let n := c.toNat
  if n < 0x80 then [n]
  else if n < 0x800 then [0xC0 ||| (n >>> 6), 0x80 ||| (n &&& 0x3F)]
  else if n < 0x10000 then
    [0xE0 ||| (n >>> 12), 0x80 ||| ((n >>> 6) &&& 0x3F), 0x80 ||| (n &&& 0x3F)]
  else
    [0xF0 ||| (n >>> 18), 0x80 ||| ((n >>> 12) &&& 0x3F), 0x80 ||| ((n >>> 6) &&& 0x3F),
     0x80 ||| (n &&& 0x3F)]

/-- UTF-8 bytes of a string. -/
def strBytes (s : String) : List Nat := (s.data.map utf8Bytes).flatten

/-- Big-endian byte expansion of `n` into `k` bytes. -/
def beBytes (k : Nat) (n : Nat) : List Nat :=
  (List.range k).map (fun i => (n >>> (8 * (k - 1 - i))) &&& 0xFF)

/-- SHA-256 message padding: append 0x80, zero bytes up to 56 mod 64, and the
bit length as 8 big-endian bytes. -/
def shaPad (msg : List Nat) : List Nat :=
  msg ++ [0x80] ++ List.replicate ((119 - msg.length % 64) % 64) 0 ++ beBytes 8 (8 * msg.length)

/-- Pack bytes into big-endian 32-bit words. -/
def toWords : List Nat → List Nat
  | b0 :: b1 :: b2 :: b3 :: rest =>
    ((b0 <<< 24) ||| (b1 <<< 16) ||| (b2 <<< 8) ||| b3) :: toWords rest
  | _ => []

/-- SHA-256 small sigma 0. -/
def smallSigma0 (x : Nat) : Nat := (rotr 7 x) ^^^ (rotr 18 x) ^^^ (x >>> 3)

/-- SHA-256 small sigma 1. -/
def smallSigma1 (x : Nat) : Nat := (rotr 17 x) ^^^ (rotr 19 x) ^^^ (x >>> 10)

/-- Extend the 16 message words of a block to the 64-entry schedule. -/
def extendWords (w : List Nat) : List Nat :=
  (List.range 48).foldl
    (fun w i =>
      w ++ [w32 (w.getD i 0 + smallSigma0 (w.getD (i + 1) 0) + w.getD (i + 9) 0 +
        smallSigma1 (w.getD (i + 14) 0))])
    w

/-- SHA-256 big sigma 0. -/
def bigSigma0 (x : Nat) : Nat := (rotr 2 x) ^^^ (rotr 13 x) ^^^ (rotr 22 x)

/-- SHA-256 big sigma 1. -/
def bigSigma1 (x : Nat) : Nat := (rotr 6 x) ^^^ (rotr 11 x) ^^^ (rotr 25 x)

/-- SHA-256 choice function. -/
def chFn (e f g : Nat) : Nat := (e &&& f) ^^^ ((0xFFFFFFFF ^^^ e) &&& g)

/-- SHA-256 majority function. -/
def majFn (a b c : Nat) : Nat := (a &&& b) ^^^ (a &&& c) ^^^ (b &&& c)

/-- One SHA-256 compression round; the state is the list [a,b,c,d,e,f,g,h]. -/
def shaRound (st : List Nat) (kw : Nat × Nat) : List Nat :=
  match st with
  | [a, b, c, d, e, f, g, h] =>
    let t1 := w32 (h + bigSigma1 e + chFn e f g + kw.1 + kw.2)
    let t2 := w32 (bigSigma0 a + majFn a b c)
    [w32 (t1 + t2), a, b, c, w32 (d + t1), e, f, g]
  | st => st

/-- Process one 64-byte block. -/
def shaBlock (h : List Nat) (block : List Nat) : List Nat :=
  let w := extendWords (toWords block)
  let st := (shaK.zip w).foldl shaRound h
  (h.zip st).map (fun p => w32 (p.1 + p.2))

/-- Split a byte list into 64-byte chunks (fuelled; the fuel is the list
length, which always suffices). -/
def chunks64 : Nat → List Nat → List (List Nat)
  | 0, _ => []
  | _, [] => []
  | fuel + 1, l => l.take 64 :: chunks64 fuel (l.drop 64)

/-- SHA-256 digest of a string, as eight 32-bit words. -/
def sha256Words (s : String) : List Nat :=
  let padded := shaPad (strBytes s)
  (chunks64 padded.length padded).foldl shaBlock shaH0

/-- Lower-case hex digit. -/
def hexDigit (n : Nat) : Char :=
  if n < 10 then Char.ofNat (48 + n) else Char.ofNat (87 + n)

/-- Lower-case hex rendering of a 32-bit word. -/
def hexWord (n : Nat) : List Char :=
  (List.range 8).map (fun i => hexDigit ((n >>> (4 * (7 - i))) &&& 0xF))

/-- Hex-encoded SHA-256 digest of a string: the `sha256::digest` function. -/
def sha256hex (s : String) : String :=
  String.mk ((sha256Words s).map hexWord).flatten

/-! ## Data model (`model.rs`) -/

/-- Track lifecycle state, persisted as an integer code (0 = Copied,
1 = Copying, other = Unknown). -/
inductive FileState where
  | Copied
  | Copying
  | Unknown
deriving DecidableEq, Repr

/-- A media file known to a catalog (`model.rs`, struct `Track`). -/
structure Track where
  id : Int
  track_id : String
  title : String
  artist : String
  album : String
  number : Int
  file_path : String
  disc_number : Int
  disc_total : Int
  file_state : FileState
  extension : String
deriving DecidableEq, Repr

/-- The public attribute view of a track handed to the filter runtime
(`model.rs`, struct `BaseTrack`). -/
structure BaseTrack where
  title : String
  artist : String
  album : String
  number : Int
  file_path : String
  disc_number : Int
  disc_total : Int
  extension : String
deriving DecidableEq, Repr

/-- Conversion `From<Track> for BaseTrack`. -/
def Track.toBase (value : Track) : BaseTrack :=
  { title := value.title
    artist := value.artist
    album := value.album
    number := value.number
    file_path := value.file_path
    disc_number := value.disc_number
    disc_total := value.disc_total
    extension := value.extension }

/-- The embedded NUL character string (`NULL_CHAR` in `model.rs`). -/
def NULL_CHAR : Char := Char.ofNat 0

/-- Replacement of every occurrence of a single character by an underscore
(each `s.replace(c, "_")` step of `clean`). -/
def replaceChar (s : String) (c : Char) : String :=
  String.mk (s.data.map (fun x => if x = c then '_' else x))

/-- The character list iterated by `clean` in `model.rs`: quote, the platform
path separator (slash), star, slash, colon, angle brackets, question mark,
backslash, pipe, plus, comma, the period only when the segment is not a file
name, semicolon, equals, square brackets, and NUL.  The empty-string entry of
the source (the period when `is_file` is set) is skipped there by the
`c != ""` guard, so it is simply absent here. -/
def cleanChars (is_file : Bool) : List Char :=
  ['"', '/', '*', '/', ':', '<', '>', '?', '\\', '|', '+', ','] ++
    (if is_file then [] else ['.']) ++
    [';', '=', '[', ']', NULL_CHAR]

/-- The `clean` function of `model.rs`: successive single-character
replacements by underscore. -/
def clean (s : String) (is_file : Bool) : String :=
  (cleanChars is_file).foldl replaceChar s

/-- Splitting a character list at the characters satisfying `p` (a
structural rendition of string splitting; the separators are dropped and
empty pieces are kept). -/
def splitCharP (p : Char → Bool) (l : List Char) : List (List Char) :=
  l.foldr
    (fun c acc =>
      match acc with
      | [] => [[c]]
      | a :: as => if p c then [] :: a :: as else (c :: a) :: as)
    [[]]

/-- Whitespace trimming at both ends (Rust's `str::trim`). -/
def strTrim (s : String) : String :=
  String.mk (((s.data.dropWhile Char.isWhitespace).reverse.dropWhile Char.isWhitespace).reverse)

/-- The last normal component of a path, following Rust's
`Path::file_name`: empty and `.` components are skipped, and a trailing
`..` yields none. -/
def rustFileName (p : String) : Option String :=
  let comps := ((splitCharP (fun c => c == '/') p.data).map String.mk).filter
    (fun c => c != "" && c != ".")
  match comps.getLast? with
  | some c => if c = ".." then none else some c
  | none => none

/-- Rust's `Path::extension`: the part of the file name after the last
period, none when there is no period past position zero. -/
def rustExtension (p : String) : Option String :=
  match rustFileName p with
  | none => none
  | some name =>
    let cs := name.data
    let ext := cs.reverse.takeWhile (fun c => c ≠ '.')
    if ext.length = cs.length then none
    else if cs.length - ext.length - 1 = 0 then none
    else some (String.mk ext.reverse)

/-- The storage path of a track under a base directory
(`Track::storage_path` in `model.rs`); the extension of the file name is
re-derived from `file_path` there. -/
def Track.storage_path (t : Track) (base : String) : String :=
  let extension := (rustExtension t.file_path).getD ""
  let filename := t.title ++ "." ++ extension
  base ++ "/" ++ clean t.artist false ++ "/" ++ clean t.album false ++ "/" ++
    clean (toString t.disc_number) false ++ "/" ++ clean filename true

/-- A scanned media file before conversion: the extracted audio tags (each
possibly missing) and the file path (`model.rs`, struct `RawTrack`; the
`audiotags` reader is external, so the tag accessors appear as fields). -/
structure RawTrack where
  tag_title : Option String
  tag_artist : Option String
  tag_album_artist : Option String
  tag_album_title : Option String
  tag_track_number : Option Nat
  tag_disc_number : Option Nat
  tag_disc_total : Option Nat
  path : String

/-- The `track_hash` function of `model.rs`: hex SHA-256 of the plain
concatenation artist, album, title, extension of the given track value. -/
def track_hash (track : Track) : String :=
  sha256hex (track.artist ++ track.album ++ track.title ++ track.extension)

/-- Conversion `From<RawTrack> for Track` in `model.rs`.  The track is first
built with an empty `extension`, `track_hash` is computed on that value, and
only afterwards is `extension` filled in from the path (default "NONE"). -/
def Track.fromRaw (track : RawTrack) : Track :=
  let artist := match track.tag_album_artist with
    | some aa => aa
    | none => track.tag_artist.getD "Unknown Album"
  let t : Track :=
    { id := 0
      track_id := ""
      title := track.tag_title.getD "Unknown Title"
      artist := artist
      album := track.tag_album_title.getD "Unknown Album"
      number := (track.tag_track_number.getD 0 : Nat)
      file_path := track.path
      disc_number := (track.tag_disc_number.getD 0 : Nat)
      disc_total := (track.tag_disc_total.getD 0 : Nat)
      file_state := FileState.Unknown
      extension := "" }
  let t := { t with track_id := track_hash t }
  let extension := (rustExtension t.file_path).getD "NONE"
  { t with extension := extension }

/-! ## Catalog store (`db/instance.rs`, `db/lib.rs`)

A catalog is modelled as its list of track rows.  The `tracks` table carries
a unique index on `track_id` (spec section 6: one row per `track_id`; the
SQL migrations live outside the scanned sources), so `INSERT OR REPLACE`
removes the row with the same `track_id`, if any, and inserts the new one;
the store-local surrogate key `id` is the SQLite primary key. -/

/-- A persistent catalog of track rows. -/
structure Catalog where
  tracks : List Track
deriving DecidableEq, Repr

/-- Upsert keyed by `track_id` (`Instance::insert_track`,
`INSERT OR REPLACE INTO tracks`). -/
def Catalog.insert_track (c : Catalog) (track : Track) : Catalog :=
  { tracks := c.tracks.filter (fun r => r.track_id != track.track_id) ++ [track] }

/-- Rows in a given state (`Instance::tracks_by_state`). -/
def Catalog.tracks_by_state (c : Catalog) (state : FileState) : List Track :=
  c.tracks.filter (fun t => decide (t.file_state = state))

/-- Track ids of rows in a given state (`Instance::track_ids_by_state`). -/
def Catalog.track_ids_by_state (c : Catalog) (state : FileState) : List String :=
  (c.tracks.filter (fun t => decide (t.file_state = state))).map (fun t => t.track_id)

/-- Rows whose `track_id` is among `ids` (`Instance::tracks_by_id`). -/
def Catalog.tracks_by_id (c : Catalog) (ids : List String) : List Track :=
  c.tracks.filter (fun t => decide (t.track_id ∈ ids))

/-- Row deletion by the store-local surrogate key (`Instance::delete`). -/
def Catalog.delete (c : Catalog) (id : Int) : Catalog :=
  { tracks := c.tracks.filter (fun t => decide (¬t.id = id)) }

namespace Db

/-- The set diff of `db/lib.rs`: `Copied` track ids of `source` that are not
`Copied` track ids of `destination`.  The two id lists pass through
`HashSet`s, modelled by `dedup`; the iteration order of the resulting set is
unspecified, here first-occurrence order. -/
def diff (source destination : Catalog) : List String :=
  let source_ids := (source.track_ids_by_state FileState.Copied).dedup
  let dest_ids := (destination.track_ids_by_state FileState.Copied).dedup
  source_ids.filter (fun e => decide (e ∉ dest_ids))

end Db

/-! ## Filter runtime contract (`filter/filter.rs` and the external rhai
engine, spec sections 4.6 and 9) -/

/-- Model of a rhai script at the engine's interface boundary: whether the
source text compiles, and the single-track predicate the script exposes
under the function name `filter`, if any.  A `none` result of a call models
a runtime evaluation error; the engine itself is external, so only this
compile/evaluate contract is embedded. -/
structure Script where
  parses : Bool
  filter_fn : Option (BaseTrack → Option Bool)

/-- Errors of `filter/filter.rs` (the `RegexError` case belongs to the
external regex helper and never arises in this model). -/
inductive FilterError where
  | ParseError
  | RunError (msg : String)
deriving DecidableEq, Repr

/-- Per-track evaluation loop of `ScriptRuntime::run`: calling the `filter`
function on each track, failing on a missing function (rhai's
function-not-found evaluation error) or on a runtime error. -/
def Script.run (s : Script) (model : List BaseTrack) : Except FilterError (List Bool) :=
  model.foldlM
    (fun ret track =>
      match s.filter_fn with
      | none => Except.error (FilterError.RunError "function not found: filter")
      | some f =>
        match f track with
        | none => Except.error (FilterError.RunError "runtime error")
        | some res => Except.ok (ret ++ [res]))
    []

namespace Filter

/-- The `compile` function: building an engine and compiling the script
succeeds exactly when the source text parses. -/
def compile (script : Script) : Except FilterError Script :=
  if script.parses then Except.ok script else Except.error FilterError.ParseError

/-- The `evaluate` function: compile every script, propagating the first
compile error. -/
def evaluate (scripts : List Script) : Except FilterError (List Script) :=
  scripts.foldlM (fun sc s =>
    match compile s with
    | Except.error e => Except.error e
    | Except.ok r => Except.ok (sc ++ [r])) []

/-- The `check` function: `evaluate` with the compiled runtimes discarded. -/
def check (scripts : List Script) : Except FilterError Unit :=
  match evaluate scripts with
  | Except.error e => Except.error e
  | Except.ok _ => Except.ok ()

end Filter

namespace FilterCmd

/-- The persistence path of `cmd/filter.rs::run` once the new script text is
in hand (editor and file reading are I/O): validate via `Filter.check`,
then store the script through `set_filter`, which overwrites the single
filter column of the `state` row. -/
def run (_stored : Option Script) (input : Script) : Except FilterError (Option Script) :=
  match Filter.check [input] with
  | Except.error e => Except.error e
  | Except.ok _ => Except.ok (some input)

end FilterCmd

/-! ## Reconciliation and the copy pipeline (`cmd/sync.rs`)

The claims about reconciliation presuppose the filter predicate evaluates
(spec 4.6 requires it pure and per-track), so the sync-side filter is
modelled as an optional pure predicate on the track's public attributes;
`true` means "exclude from sync". -/

/-- The `filter_tracks` function of `cmd/sync.rs`: run the predicate over
the tracks and drop a track exactly when its result is `true` and we are
not in delete mode (index-wise pairing of `filter_res` with the tracks). -/
def filter_tracks (raw_tracks : List Track) (filters : Option (BaseTrack → Bool))
    (delete : Bool) : List Track :=
  match filters with
  | some f =>
    let filter_res := raw_tracks.map (fun t => f t.toBase)
    (raw_tracks.zip filter_res).filterMap
      (fun elem => if elem.2 && !delete then none else some elem.1)
  | none => raw_tracks

/-- The `filter_tracks_by_id` function of `cmd/sync.rs`: resolve ids to
rows, filter them, and return the surviving ids. -/
def filter_tracks_by_id (filters : Option (BaseTrack → Bool)) (db : Catalog)
    (ids : List String) : List String :=
  (filter_tracks (db.tracks_by_id ids) filters false).map (fun t => t.track_id)

/-- The `diff_databases` function of `cmd/sync.rs`: destination `Copied`
ids minus the filtered source `Copied` ids (both through `HashSet`s). -/
def diff_databases (source destination : Catalog) (filters : Option (BaseTrack → Bool))
    (delete : Bool) : List String :=
  let local_tracks := source.tracks_by_state FileState.Copied
  let local_tracks := filter_tracks local_tracks filters delete
  let dest_tracks := destination.tracks_by_state FileState.Copied
  let src_ids := (local_tracks.map (fun t => t.track_id)).dedup
  let dst_ids := (dest_tracks.map (fun t => t.track_id)).dedup
  dst_ids.filter (fun e => decide (e ∉ src_ids))

/-- The two id lists the sync `run` computes before acting (`cmd/sync.rs`
lines 62-87): the filtered copy list and the delete list. -/
def reconcile (local_db dest_db : Catalog) (filters : Option (BaseTrack → Bool)) :
    List String × List String :=
  let diff := Db.diff local_db dest_db
  let reverse_diff := Db.diff dest_db local_db ++ diff_databases local_db dest_db filters false
  let diff := filter_tracks_by_id filters local_db diff
  (diff, reverse_diff)

/-- Observable actions of the copy/delete pipeline, in program order:
database upserts and row deletions on the destination catalog, directory
creation, the content duplication (copy or hard link) and file removal. -/
inductive Event where
  | dbUpsert (track : Track)
  | dbDelete (id : Int)
  | mkdir (path : String)
  | fsCopy (src dst : String) (link : Bool)
  | fsRemove (path : String)
deriving DecidableEq, Repr

/-- Outcome of the fallible filesystem steps of one `copy` call: directory
creation failure, origin-file open/metadata failure, content copy or hard
link failure, or success. -/
inductive CopyOutcome where
  | dirFail
  | openFail
  | copyFail
  | success
deriving DecidableEq, Repr

/-- Parent directory of a path (`Path::parent`), used as the `mkdir`
target. -/
def parentDir (p : String) : String :=
  String.intercalate "/" (((splitCharP (fun c => c == '/') p.data).map String.mk).dropLast)

namespace Sync

/-- One copy transition (`cmd/sync.rs::copy`): upsert the row with state
`Copying`, create the directory tree, open the origin file, duplicate the
content, and only on success upsert the row again with state `Copied`.  The
returned flag is success; a failing step aborts with the events before it
already performed (the `?` propagation of the source). -/
def copy (track : Track) (dest_dir : String) (link : Bool) (outcome : CopyOutcome) :
    List Event × Bool :=
  let track_storage_path := track.storage_path dest_dir
  let dest_track : Track := { track with file_state := FileState.Copying }
  let step1 : List Event := [Event.dbUpsert dest_track]
  match outcome with
  | CopyOutcome.dirFail => (step1, false)
  | CopyOutcome.openFail => (step1 ++ [Event.mkdir (parentDir track_storage_path)], false)
  | CopyOutcome.copyFail =>
    (step1 ++ [Event.mkdir (parentDir track_storage_path),
      Event.fsCopy track.file_path track_storage_path link], false)
  | CopyOutcome.success =>
    (step1 ++ [Event.mkdir (parentDir track_storage_path),
      Event.fsCopy track.file_path track_storage_path link,
      Event.dbUpsert { dest_track with file_state := FileState.Copied }], true)

/-- One deletion transition (`cmd/sync.rs::delete`): delete the destination
row, then remove the file at the derived storage path; `removeOk` is whether
the file removal succeeds (its failure surfaces after the row is gone). -/
def delete (track : Track) (dest_dir : String) (removeOk : Bool) : List Event × Bool :=
  let track_storage_path := track.storage_path dest_dir
  ([Event.dbDelete track.id, Event.fsRemove track_storage_path], removeOk)

/-- The `run_delete` loop of `cmd/sync.rs`: resolve the ids against the
destination, filter in delete mode, and delete one track at a time,
aborting on the first failure. -/
def run_delete (dest_db : Catalog) (dest_dir : String) (diff : List String)
    (filters : Option (BaseTrack → Bool)) (removeOk : Track → Bool) : List Event × Bool :=
  let tracks := filter_tracks (dest_db.tracks_by_id diff) filters true
  tracks.foldl
    (fun acc track =>
      if acc.2 then
        let r := delete track dest_dir (removeOk track)
        (acc.1 ++ r.1, r.2)
      else acc)
    ([], true)

/-- The `run_copy` loop of `cmd/sync.rs`: resolve the ids against the local
catalog, re-filter, and copy one track at a time, aborting on the first
failure. -/
def run_copy (local_db : Catalog) (dest_dir : String) (diff : List String)
    (filters : Option (BaseTrack → Bool)) (link : Bool) (outcome : Track → CopyOutcome) :
    List Event × Bool :=
  let tracks := filter_tracks (local_db.tracks_by_id diff) filters false
  tracks.foldl
    (fun acc track =>
      if acc.2 then
        let r := copy track dest_dir link (outcome track)
        (acc.1 ++ r.1, r.2)
      else acc)
    ([], true)

/-- The sync `run` of `cmd/sync.rs` (lines 49-110) in its non-dry-run form:
compute the diffs, apply the filter, run the deletions unless `no_delete`,
and then run the copies; the outcome oracles supply the filesystem results
of the individual transitions. -/
def run (local_db dest_db : Catalog) (dest_dir : String)
    (filters : Option (BaseTrack → Bool)) (no_delete link : Bool)
    (removeOk : Track → Bool) (outcome : Track → CopyOutcome) : List Event × Bool :=
  let diff := Db.diff local_db dest_db
  let reverse_diff := Db.diff dest_db local_db ++ diff_databases local_db dest_db filters false
  let diff := filter_tracks_by_id filters local_db diff
  let del :=
    if no_delete then ([], true)
    else run_delete dest_db dest_dir reverse_diff filters removeOk
  if del.2 then
    let cp := run_copy local_db dest_dir diff filters link outcome
    (del.1 ++ cp.1, cp.2)
  else del

end Sync

/-- Effect of one pipeline event on the destination catalog: upserts and row
deletions mutate the store, filesystem events do not. -/
def applyEvent (c : Catalog) (e : Event) : Catalog :=
  match e with
  | Event.dbUpsert t => c.insert_track t
  | Event.dbDelete i => c.delete i
  | _ => c

/-- Catalog state after a trace of pipeline events. -/
def applyEvents (c : Catalog) (es : List Event) : Catalog := es.foldl applyEvent c

/-! ## Recovery pass (`cmd/clean.rs`) -/

/-- The filesystem at the destination, as the list of existing file paths.
`std::fs::remove_file` fails (with a not-found error) when the path does not
exist, so removal returns the new filesystem only when the file was
present. -/
def removeFile (fs : List String) (path : String) : Option (List String) :=
  if path ∈ fs then some (fs.filter (fun p => p != path)) else none

namespace Clean

/-- The recovery pass `cmd/clean.rs::run`: for every destination row in
state `Copying`, delete the row and then remove the file at its derived
storage path; a failing removal aborts the pass with an error naming the
file (the `?` on the `with_context` wrapper). -/
def run (dest_db : Catalog) (fs : List String) (dest_dir : String) :
    Except String (Catalog × List String) :=
  (dest_db.tracks_by_state FileState.Copying).foldlM
    (fun st track =>
      let storage := track.storage_path dest_dir
      let db1 := Catalog.delete st.1 track.id
      match removeFile st.2 storage with
      | some fs1 => Except.ok (db1, fs1)
      | none => Except.error ("Cannot delete file " ++ storage))
    (dest_db, fs)

end Clean

/-! ## Duplicate detector (`cmd/dupes.rs`)

The catalog's full-text album query and the `similar_string` crate's
best-similarity search are external collaborators; they enter the model as
oracles, with the similarity score as a rational in [0,1]. -/

/-- An album row of the `albums` view. -/
structure Album where
  title : String
  artist : String
  format : String

/-- Replacement of a single character by a space. -/
def replaceCharSpace (s : String) (c : Char) : String :=
  String.mk (s.data.map (fun x => if x = c then ' ' else x))

namespace Dupes

/-- The keyword `clean` of `cmd/dupes.rs`: punctuation replaced by
spaces. -/
def clean (s : String) : String :=
  ['(', ')', ':', Char.ofNat 39, '.', '<', '>', ',', '-', '[', ']', '?', '/', '!'].foldl
    replaceCharSpace s

/-- The `split_after_parenthesis` function: cut the string at its first
opening parenthesis, if any. -/
def split_after_parenthesis (s : String) : String :=
  match s.data.findIdx? (fun c => c = '(') with
  | none => s
  | some i => String.mk (s.data.take i)

end Dupes

/-- External collaborators of the duplicate detector: the catalog's
full-text album lookup (`Instance::fuzzy_find_album`, returning
(track id, album name, extension) rows for a keyword query) and
`similar_string::find_best_similarity`. -/
structure DupesEnv where
  fuzzy_find_album : List String → List (String × String × String)
  find_best_similarity : String → List String → Option (String × ℚ)

/-- One reported fuzzy-duplicate pair, as printed by `cmd/dupes.rs`: the
trimmed current album name, and the matched candidate name (printed
trimmed, recorded in the seen-set untrimmed). -/
structure Report where
  an_trim : String
  dupe_name : String
deriving DecidableEq, Repr

namespace Dupes

/-- Rust's `collect::<HashMap<_,_>>()` on an association list: one entry per
key, the last value winning; the unspecified iteration order of the map is
determinized to first-occurrence order of the keys. -/
def collectMap (l : List (String × String × String)) : List (String × String × String) :=
  l.foldl
    (fun m kv =>
      if m.any (fun e => e.1 == kv.1) then m.map (fun e => if e.1 == kv.1 then kv else e)
      else m ++ [kv])
    []

/-- The body of the per-album loop of `cmd/dupes.rs::run` (lines 79-129):
find the best-scoring other album name, skip the pair if its seen-set key
(trimmed current name, raw candidate name) is already recorded, record it,
and report it when the score is at least 0.6.  The state is the seen-set
`dedup` paired with the reports issued so far. -/
def process_album (album_names : List String) (env : DupesEnv)
    (st : List (String × String) × List Report) (entry : String × String × String) :
    List (String × String) × List Report :=
  let album_name := entry.1
  let options := album_names.erase album_name
  match env.find_best_similarity album_name options with
  | none => st
  | some res =>
    let dupe_name := res.1
    let score := res.2
    let an_trim := strTrim album_name
    if (an_trim, dupe_name) ∈ st.1 then st
    else
      let dedup := st.1 ++ [(an_trim, dupe_name)]
      if score < mkRat 3 5 then (dedup, st.2)
      else (dedup, st.2 ++ [{ an_trim := an_trim, dupe_name := dupe_name }])

/-- The fuzzy half of `cmd/dupes.rs::run`: build the keyword list per album,
query the full-text index, group the matches by parenthesis-stripped album
name into a map, and when at least two distinct names match, run the
per-album pairing loop; the seen-set persists across the whole run.
Returns the reported pairs. -/
def run (albums : List Album) (env : DupesEnv) : List Report :=
  let keywords : List (String × List String) := albums.map (fun a =>
    let album := split_after_parenthesis a.title
    (clean a.artist,
      (((splitCharP (fun c => c.isWhitespace) album.data).map String.mk).filter
        (fun w => w != "")).filterMap
        (fun word => if word.utf8ByteSize > 3 then some (clean word) else none)))
  (keywords.foldl
    (fun st keyword =>
      if keyword.2.length = 0 then st
      else
        let found := env.fuzzy_find_album keyword.2
        let matched := collectMap (found.map (fun e =>
          (split_after_parenthesis e.2.1, split_after_parenthesis e.2.2, e.1)))
        if matched.isEmpty then st
        else if matched.length ≤ 1 then st
        else
          let album_names := matched.map (fun kv => kv.1)
          matched.foldl (process_album album_names env) st)
    (([] : List (String × String)), ([] : List Report))).2

end Dupes

/-! ## Auxiliary predicates and spec-side reference definitions -/

/-- Track-id uniqueness of a catalog: one row per `track_id` (the unique
index of the `tracks` table). -/
def Catalog.wfTrackIds (c : Catalog) : Prop :=
  (c.tracks.map (fun t => t.track_id)).Nodup

/-- Surrogate-key uniqueness of a catalog: the store-local `id` is the
primary key. -/
def Catalog.wfLocalIds (c : Catalog) : Prop :=
  (c.tracks.map (fun t => t.id)).Nodup

instance (c : Catalog) : Decidable c.wfTrackIds := by
  unfold Catalog.wfTrackIds
  infer_instance

instance (c : Catalog) : Decidable c.wfLocalIds := by
  unfold Catalog.wfLocalIds
  infer_instance

/-- A track id with a `Copied` row in the catalog. -/
def Catalog.isCopied (c : Catalog) (x : String) : Prop :=
  ∃ r ∈ c.tracks, r.file_state = FileState.Copied ∧ r.track_id = x

instance (c : Catalog) (x : String) : Decidable (c.isCopied x) := by
  unfold Catalog.isCopied
  infer_instance

/-- Whether the filter configuration lets a track through in copy
direction (`none` keeps everything; a predicate keeps the tracks it does
not exclude). -/
def keep (filters : Option (BaseTrack → Bool)) (t : Track) : Bool :=
  match filters with
  | none => true
  | some f => !(f t.toBase)

/-- A track id with a `Copied` row in the catalog that the filter
configuration keeps. -/
def Catalog.isKeptCopied (c : Catalog) (fs : Option (BaseTrack → Bool)) (x : String) : Prop :=
  ∃ r ∈ c.tracks, r.file_state = FileState.Copied ∧ keep fs r = true ∧ r.track_id = x

instance (c : Catalog) (fs : Option (BaseTrack → Bool)) (x : String) :
    Decidable (c.isKeptCopied fs x) := by
  unfold Catalog.isKeptCopied
  infer_instance

/-- Events that belong to a deletion transition. -/
def Event.isDeleteKind : Event → Bool
  | Event.dbDelete _ => true
  | Event.fsRemove _ => true
  | _ => false

/-- Events that belong to a copy transition. -/
def Event.isCopyKind : Event → Bool
  | Event.dbUpsert _ => true
  | Event.mkdir _ => true
  | Event.fsCopy _ _ _ => true
  | _ => false

/-- The unsafe-character list as the spec words it for the storage path:
quote, path separator, wildcard, colon, angle brackets, question mark,
backslash, pipe, plus, comma, the period only in non-final segments,
semicolon, equals sign, brackets, embedded NUL. -/
def specUnsafeChars (finalSegment : Bool) : List Char :=
  ['"', '/', '*', ':', '<', '>', '?', '\\', '|', '+', ','] ++
    (if finalSegment then [] else ['.']) ++
    [';', '=', '[', ']', Char.ofNat 0]

/-- The spec's `clean()`: each unsafe character replaced with an
underscore. -/
def specClean (finalSegment : Bool) (s : String) : String :=
  String.mk (s.data.map (fun c => if c ∈ specUnsafeChars finalSegment then '_' else c))

/-- The storage path exactly as the claim words it, with the extension
taken from the Track's `extension` field. -/
def specStoragePathClaim (t : Track) (base : String) : String :=
  base ++ "/" ++ specClean false t.artist ++ "/" ++ specClean false t.album ++ "/" ++
    specClean false (toString t.disc_number) ++ "/" ++
    specClean true (t.title ++ "." ++ t.extension)

/-- The storage path with the extension derived from `file_path` (empty
when the path has none), as the code computes it. -/
def specStoragePathAmended (t : Track) (base : String) : String :=
  base ++ "/" ++ specClean false t.artist ++ "/" ++ specClean false t.album ++ "/" ++
    specClean false (toString t.disc_number) ++ "/" ++
    specClean true (t.title ++ "." ++ (rustExtension t.file_path).getD "")

/-! ## Concrete instances used by counterexamples and witnesses -/

/-- A scanned mp3 file with complete tags. -/
def rawMp3 : RawTrack :=
  { tag_title := some "T"
    tag_artist := some "A"
    tag_album_artist := none
    tag_album_title := some "B"
    tag_track_number := some 1
    tag_disc_number := some 1
    tag_disc_total := some 1
    path := "/m/t.mp3" }

/-- The same file scanned as a flac: identical tags, different
extension. -/
def rawFlac : RawTrack := { rawMp3 with path := "/m/t.flac" }

/-- A small concrete track used by witnesses. -/
def exTrack (n : Int) (tid : String) (st : FileState) : Track :=
  { id := n
    track_id := tid
    title := "T" ++ tid
    artist := "Artist"
    album := "Album"
    number := 1
    file_path := "/music/" ++ tid ++ ".mp3"
    disc_number := 1
    disc_total := 1
    file_state := st
    extension := "mp3" }

/-- Witness source catalog: tracks a and b `Copied`. -/
def exLocal : Catalog := { tracks := [exTrack 1 "a" FileState.Copied, exTrack 2 "b" FileState.Copied] }

/-- Witness destination catalog: tracks a and c `Copied`. -/
def exDest : Catalog := { tracks := [exTrack 1 "a" FileState.Copied, exTrack 2 "c" FileState.Copied] }

/-- Witness filter predicate: exclude the track with title "Tb". -/
def exFilter : BaseTrack → Bool := fun b => b.title == "Tb"

/-- Witness destination already holding the excluded track b as `Copied`. -/
def exDest2 : Catalog := { tracks := [exTrack 5 "b" FileState.Copied] }

/-- A destination row stuck in state `Copying` with no file on disk. -/
def cexCleanTrack : Track := exTrack 7 "x" FileState.Copying

/-- Destination catalog holding only the stuck `Copying` row. -/
def cexCleanDb : Catalog := { tracks := [cexCleanTrack] }

/-- A track whose `extension` field disagrees with the extension of its
`file_path` (the field is "flac", the path ends in ".mp3"). -/
def cexPathTrack : Track := { exTrack 1 "p" FileState.Copied with extension := "flac" }

/-- A script that parses but defines no `filter` function. -/
def cexScript : Script := { parses := true, filter_fn := none }

/-- A concrete track attribute record. -/
def cexBase : BaseTrack := (exTrack 1 "a" FileState.Copied).toBase

/-- Two albums of the duplicate-detector counterexample. -/
def cexAlbums : List Album :=
  [{ title := "Great Album", artist := "Artist", format := "flac" }]

/-- Oracle environment of the duplicate-detector counterexample: the
full-text query over the keywords of "Great Album" matches two album rows,
"Great Album" and "Great Album Live", and the best-similarity search is
symmetric with score 0.9. -/
def cexEnv : DupesEnv :=
  { fuzzy_find_album := fun q =>
      if q = ["Great", "Album"] then
        [("id1", "Great Album", "flac"), ("id2", "Great Album Live", "mp3")]
      else []
    find_best_similarity := fun _ options =>
      match options with
      | [o] => some (o, mkRat 9 10)
      | _ => none }

/-! ## Claim C1: track identity versus the extension field -/

/-- C1 (code evaluated at the failing input): `From<RawTrack>` computes
`track_hash` before the extension field is filled in, so the hash covers
the empty extension.  Two scans of the same tags with different file
extensions produce the same `track_id`, namely hex-SHA-256 of
artist, album and title only, and that id differs from the hash over the
resulting track's four fields. -/
theorem C1_track_id_extension_dropped :
    (Track.fromRaw rawMp3).extension = "mp3" ∧
      (Track.fromRaw rawFlac).extension = "flac" ∧
      (Track.fromRaw rawMp3).track_id = (Track.fromRaw rawFlac).track_id ∧
      (Track.fromRaw rawMp3).track_id =
        sha256hex ((Track.fromRaw rawMp3).artist ++ (Track.fromRaw rawMp3).album ++
          (Track.fromRaw rawMp3).title) ∧
      (Track.fromRaw rawMp3).track_id ≠ track_hash (Track.fromRaw rawMp3) := by
  refine ⟨rfl, rfl, ?_, ?_, ?_⟩ <;> decide

/-! ## Claim C4: the recovery pass on a missing file -/

/-- C4 (code evaluated at the failing input): for the destination row in
state Copying whose file is absent, the recovery pass deletes the row but
then aborts with an error from `remove_file`; with the file present the
same pass succeeds and removes both row and file. -/
theorem C4_clean_errors_on_missing_file :
    Clean.run cexCleanDb [] "/dst" =
        Except.error "Cannot delete file /dst/Artist/Album/1/Tx.mp3" ∧
      Clean.run cexCleanDb ["/dst/Artist/Album/1/Tx.mp3"] "/dst" =
        Except.ok ({ tracks := [] }, []) :=
  ⟨rfl, rfl⟩

/-! ## Claim C7: filter validation versus callability -/

/-- C7 counterexample: a script that parses but exposes no `filter`
function passes `check`, is persisted by the filter command, and its later
evaluation on a track fails with a function-not-found runtime error — so
validation does not guarantee a callable filter function. -/
theorem C7_counterexample :
    Filter.check [cexScript] = Except.ok () ∧
      FilterCmd.run none cexScript = Except.ok (some cexScript) ∧
      Script.run cexScript [cexBase] =
        Except.error (FilterError.RunError "function not found: filter") :=
  ⟨rfl, rfl, rfl⟩

/-- C7 amended: a script is persisted by the filter command exactly when it
compiles; validation is compilation only. -/
theorem C7_persist_iff_compiles (stored : Option Script) (s : Script) :
    FilterCmd.run stored s =
      (if s.parses then Except.ok (some s) else Except.error FilterError.ParseError) := by
  cases hp : s.parses <;>
    simp [FilterCmd.run, Filter.check, Filter.evaluate, Filter.compile, hp, List.foldlM]

/-! ## Claim C8: the storage path formula -/

theorem foldl_replaceChar_eq (chars : List Char) :
    ∀ s : String,
      chars.foldl replaceChar s =
        String.mk (s.data.map (fun x => if x ∈ chars then '_' else x)) := by
  induction chars with
  | nil =>
    intro s
    simp [List.foldl]
  | cons c cs ih =>
    intro s
    rw [List.foldl_cons, ih]
    congr 1
    show (replaceChar s c).data.map _ = _
    rw [replaceChar]
    rw [List.map_map]
    apply List.map_congr_left
    intro x _
    by_cases hx : x = c
    · subst hx
      simp
    · simp only [Function.comp, if_neg hx, List.mem_cons]
      by_cases hcs : x ∈ cs
      · simp [hcs]
      · simp [hcs, hx]

theorem clean_eq_specClean (s : String) (is_file : Bool) :
    clean s is_file = specClean is_file s := by
  rw [clean, foldl_replaceChar_eq, specClean]
  congr 1
  apply List.map_congr_left
  intro x _
  have hmem : (x ∈ cleanChars is_file) ↔ (x ∈ specUnsafeChars is_file) := by
    cases is_file <;>
      · simp only [cleanChars, specUnsafeChars, NULL_CHAR, List.mem_append, List.mem_cons,
          List.not_mem_nil, or_false, if_pos, if_neg, Bool.false_eq_true, if_false, if_true]
        tauto
  exact if_congr hmem rfl rfl

/-- C8 counterexample: a track whose `extension` field is "flac" while its
`file_path` ends in ".mp3" is stored under the ".mp3" name, not under the
field's value as the claim asserts. -/
theorem C8_counterexample :
    cexPathTrack.storage_path "/dest" ≠ specStoragePathClaim cexPathTrack "/dest" := by
  decide

/-- C8 amended: the derived storage path is exactly
base / clean(artist) / clean(album) / clean(disc number) /
clean(title "." extension-of-file-path), with `clean` replacing each listed
unsafe character by an underscore (the period only in non-final
segments). -/
theorem C8_storage_path_formula (t : Track) (base : String) :
    t.storage_path base = specStoragePathAmended t base := by
  simp [Track.storage_path, specStoragePathAmended, clean_eq_specClean]

/-! ## Claim C9: duplicate reporting and the seen-set -/

/-- C9 counterexample: in one run over the concrete catalog, the unordered
pair of trimmed album names (Great Album, Great Album Live) is reported
twice — once in each order — because the seen-set records ordered pairs
only. -/
theorem C9_counterexample :
    ((Dupes.run cexAlbums cexEnv).map (fun r => (r.an_trim, strTrim r.dupe_name))).count
        ("Great Album", "Great Album Live") = 1 ∧
      ((Dupes.run cexAlbums cexEnv).map (fun r => (r.an_trim, strTrim r.dupe_name))).count
        ("Great Album Live", "Great Album") = 1 ∧
      ("Great Album" : String) ≠ "Great Album Live" := by
  refine ⟨?_, ?_, ?_⟩ <;> decide

theorem process_album_invariant (album_names : List String) (env : DupesEnv)
    (st : List (String × String) × List Report) (entry : String × String × String)
    (h1 : (st.2.map (fun r => (r.an_trim, r.dupe_name))).Nodup)
    (h2 : ∀ r ∈ st.2, (r.an_trim, r.dupe_name) ∈ st.1) :
    ((Dupes.process_album album_names env st entry).2.map
        (fun r => (r.an_trim, r.dupe_name))).Nodup ∧
      ∀ r ∈ (Dupes.process_album album_names env st entry).2,
        (r.an_trim, r.dupe_name) ∈ (Dupes.process_album album_names env st entry).1 := by
  simp only [Dupes.process_album]
  cases hfb : env.find_best_similarity entry.1 (album_names.erase entry.1) with
  | none => exact ⟨h1, h2⟩
  | some res =>
    dsimp only
    by_cases hk : (strTrim entry.1, res.1) ∈ st.1
    · rw [if_pos hk]
      exact ⟨h1, h2⟩
    · rw [if_neg hk]
      by_cases hs : res.2 < mkRat 3 5
      · rw [if_pos hs]
        exact ⟨h1, fun r hr => List.mem_append_left _ (h2 r hr)⟩
      · rw [if_neg hs]
        constructor
        · rw [List.map_append]
          simp only [List.map_cons, List.map_nil]
          refine List.Nodup.append h1 (List.nodup_singleton _) ?_
          intro x hx hx2
          rw [List.mem_singleton] at hx2
          subst hx2
          rcases List.mem_map.mp hx with ⟨r, hr, hkey⟩
          exact hk (hkey ▸ h2 r hr)
        · intro r hr
          rcases List.mem_append.mp hr with hr | hr
          · exact List.mem_append_left _ (h2 r hr)
          · rw [List.mem_singleton] at hr
            subst hr
            exact List.mem_append_right _ (List.mem_singleton_self _)

theorem foldl_process_invariant (env : DupesEnv) (album_names : List String)
    (entries : List (String × String × String)) :
    ∀ st : List (String × String) × List Report,
      (st.2.map (fun r => (r.an_trim, r.dupe_name))).Nodup →
      (∀ r ∈ st.2, (r.an_trim, r.dupe_name) ∈ st.1) →
      ((entries.foldl (Dupes.process_album album_names env) st).2.map
          (fun r => (r.an_trim, r.dupe_name))).Nodup ∧
        ∀ r ∈ (entries.foldl (Dupes.process_album album_names env) st).2,
          (r.an_trim, r.dupe_name) ∈
            (entries.foldl (Dupes.process_album album_names env) st).1 := by
  induction entries with
  | nil => intro st h1 h2; exact ⟨h1, h2⟩
  | cons e es ih =>
    intro st h1 h2
    simp only [List.foldl_cons]
    have h := process_album_invariant album_names env st e h1 h2
    exact ih _ h.1 h.2

/-- C9 amended: the seen-set does prevent re-reporting the same ordered
key — the pair of the trimmed current album name and the raw candidate
name — so each such ordered pair is reported at most once per run; the
reversed pair, however, can still be reported (see the counterexample). -/
theorem C9_report_key_once (albums : List Album) (env : DupesEnv) (a d : String) :
    (Dupes.run albums env).count { an_trim := a, dupe_name := d } ≤ 1 := by
  simp only [Dupes.run]
  refine le_trans (List.count_le_count_map _ (fun r => (r.an_trim, r.dupe_name)) _) ?_
  refine List.nodup_iff_count_le_one.mp ?_ (a, d)
  suffices h : ∀ (kws : List (String × List String))
      (st : List (String × String) × List Report),
      (st.2.map (fun r => (r.an_trim, r.dupe_name))).Nodup →
      (∀ r ∈ st.2, (r.an_trim, r.dupe_name) ∈ st.1) →
      ((kws.foldl
          (fun st keyword =>
            if keyword.2.length = 0 then st
            else
              if (Dupes.collectMap ((env.fuzzy_find_album keyword.2).map (fun e =>
                  (Dupes.split_after_parenthesis e.2.1,
                    Dupes.split_after_parenthesis e.2.2, e.1)))).isEmpty then st
              else if (Dupes.collectMap ((env.fuzzy_find_album keyword.2).map (fun e =>
                  (Dupes.split_after_parenthesis e.2.1,
                    Dupes.split_after_parenthesis e.2.2, e.1)))).length ≤ 1 then st
              else
                (Dupes.collectMap ((env.fuzzy_find_album keyword.2).map (fun e =>
                    (Dupes.split_after_parenthesis e.2.1,
                      Dupes.split_after_parenthesis e.2.2, e.1)))).foldl
                  (Dupes.process_album
                    ((Dupes.collectMap ((env.fuzzy_find_album keyword.2).map (fun e =>
                      (Dupes.split_after_parenthesis e.2.1,
                        Dupes.split_after_parenthesis e.2.2, e.1)))).map (fun kv => kv.1))
                    env) st) st).2.map
            (fun r => (r.an_trim, r.dupe_name))).Nodup by
    exact h _ (([] : List (String × String)), ([] : List Report)) (by simp) (by simp)
  intro kws
  induction kws with
  | nil => intro st h1 _; exact h1
  | cons kw kws ih =>
    intro st h1 h2
    simp only [List.foldl_cons]
    by_cases h0 : kw.2.length = 0
    · rw [if_pos h0]
      exact ih st h1 h2
    · rw [if_neg h0]
      by_cases hemp : (Dupes.collectMap ((env.fuzzy_find_album kw.2).map (fun e =>
          (Dupes.split_after_parenthesis e.2.1,
            Dupes.split_after_parenthesis e.2.2, e.1)))).isEmpty
      · rw [if_pos hemp]
        exact ih st h1 h2
      · rw [if_neg hemp]
        by_cases hlen : (Dupes.collectMap ((env.fuzzy_find_album kw.2).map (fun e =>
            (Dupes.split_after_parenthesis e.2.1,
              Dupes.split_after_parenthesis e.2.2, e.1)))).length ≤ 1
        · rw [if_pos hlen]
          exact ih st h1 h2
        · rw [if_neg hlen]
          have h := foldl_process_invariant env
            ((Dupes.collectMap ((env.fuzzy_find_album kw.2).map (fun e =>
              (Dupes.split_after_parenthesis e.2.1,
                Dupes.split_after_parenthesis e.2.2, e.1)))).map (fun kv => kv.1))
            (Dupes.collectMap ((env.fuzzy_find_album kw.2).map (fun e =>
              (Dupes.split_after_parenthesis e.2.1,
                Dupes.split_after_parenthesis e.2.2, e.1))))
            st h1 h2
          exact ih _ h.1 h.2

/-- SHA-256 of "abc" agrees with the FIPS 180-2 test vector, validating the
embedding of the digest function. -/
theorem sha256hex_abc :
    sha256hex "abc" = "ba7816bf8f01cfea414140de5dae2223b00361a396177a9cb410ff61f20015ad" := by
  decide

/-- SHA-256 of the empty string agrees with the standard test vector. -/
theorem sha256hex_empty :
    sha256hex "" = "e3b0c44298fc1c149afbf4c8996fb92427ae41e4649b934ca495991b7852b855" := by
  decide

/-! ## Basic membership lemmas about the store operations -/

theorem mem_tracks_by_id {c : Catalog} {ids : List String} {r : Track} :
    r ∈ c.tracks_by_id ids ↔ r ∈ c.tracks ∧ r.track_id ∈ ids := by
  simp [Catalog.tracks_by_id, List.mem_filter]

theorem mem_track_ids_by_state {c : Catalog} {s : FileState} {x : String} :
    x ∈ c.track_ids_by_state s ↔ ∃ r, r ∈ c.tracks ∧ r.file_state = s ∧ r.track_id = x := by
  simp [Catalog.track_ids_by_state, List.mem_filter, and_assoc]

theorem mem_tracks_by_state {c : Catalog} {s : FileState} {r : Track} :
    r ∈ c.tracks_by_state s ↔ r ∈ c.tracks ∧ r.file_state = s := by
  simp [Catalog.tracks_by_state, List.mem_filter]

theorem isCopied_iff_mem {c : Catalog} {x : String} :
    c.isCopied x ↔ x ∈ c.track_ids_by_state FileState.Copied := by
  rw [mem_track_ids_by_state]
  simp [Catalog.isCopied]

theorem mem_db_diff {a b : Catalog} {x : String} :
    x ∈ Db.diff a b ↔ a.isCopied x ∧ ¬b.isCopied x := by
  simp [Db.diff, List.mem_filter, List.mem_dedup, isCopied_iff_mem]

/-! ## Behaviour of `filter_tracks` -/

theorem filter_tracks_none (L : List Track) (d : Bool) : filter_tracks L none d = L := rfl

theorem filterMap_zip_map_fst {l : List Track} {g : Track → Bool} :
    (l.zip (l.map g)).filterMap (fun e => some e.1) = l := by
  induction l with
  | nil => rfl
  | cons a l ih => simp [List.zip_cons_cons, List.filterMap_cons, ih]

theorem mem_filterMap_zip_map {l : List Track} {g : Track → Bool} {r : Track} :
    r ∈ (l.zip (l.map g)).filterMap (fun e => if e.2 = true then none else some e.1) ↔
      r ∈ l ∧ g r = false := by
  induction l with
  | nil => simp
  | cons a l ih =>
    simp only [List.map_cons, List.zip_cons_cons, List.filterMap_cons]
    cases hga : g a with
    | true =>
      simp only [hga, if_pos, ih]
      constructor
      · rintro ⟨h1, h2⟩
        exact ⟨List.mem_cons_of_mem _ h1, h2⟩
      · rintro ⟨h1, h2⟩
        rcases List.mem_cons.mp h1 with rfl | h1
        · rw [hga] at h2; cases h2
        · exact ⟨h1, h2⟩
    | false =>
      simp only [Bool.false_eq_true, if_false, List.mem_cons, ih]
      constructor
      · rintro (rfl | ⟨h1, h2⟩)
        · exact ⟨Or.inl rfl, hga⟩
        · exact ⟨Or.inr h1, h2⟩
      · rintro ⟨rfl | h1, h2⟩
        · exact Or.inl rfl
        · exact Or.inr ⟨h1, h2⟩

theorem filter_tracks_delete (L : List Track) (fs : Option (BaseTrack → Bool)) :
    filter_tracks L fs true = L := by
  cases fs with
  | none => rfl
  | some f =>
    simp only [filter_tracks, Bool.not_true, Bool.and_false]
    simp only [Bool.false_eq_true, if_false]
    exact filterMap_zip_map_fst

theorem mem_filter_tracks_copy {L : List Track} {f : BaseTrack → Bool} {r : Track} :
    r ∈ filter_tracks L (some f) false ↔ r ∈ L ∧ f r.toBase = false := by
  simp only [filter_tracks, Bool.not_false, Bool.and_true]
  exact mem_filterMap_zip_map

theorem mem_filter_tracks_keep {L : List Track} {fs : Option (BaseTrack → Bool)} {r : Track} :
    r ∈ filter_tracks L fs false ↔ r ∈ L ∧ keep fs r = true := by
  cases fs with
  | none => simp [filter_tracks_none, keep]
  | some f =>
    rw [mem_filter_tracks_copy]
    simp [keep]

/-! ## Membership in the reconciliation outputs -/

theorem mem_diff_databases {local_db dest_db : Catalog} {fs : Option (BaseTrack → Bool)}
    {x : String} :
    x ∈ diff_databases local_db dest_db fs false ↔
      dest_db.isCopied x ∧ ¬local_db.isKeptCopied fs x := by
  simp only [diff_databases, List.mem_filter, List.mem_dedup, List.mem_map,
    mem_filter_tracks_keep, mem_tracks_by_state, decide_eq_true_eq]
  constructor
  · rintro ⟨⟨r, ⟨hr, hst⟩, rfl⟩, hnot⟩
    refine ⟨⟨r, hr, hst, rfl⟩, ?_⟩
    rintro ⟨r2, hr2, hst2, hk2, htid2⟩
    exact hnot ⟨r2, ⟨⟨hr2, hst2⟩, hk2⟩, htid2⟩
  · rintro ⟨⟨r, hr, hst, rfl⟩, hnot⟩
    refine ⟨⟨r, ⟨hr, hst⟩, rfl⟩, ?_⟩
    rintro ⟨r2, ⟨⟨hr2, hst2⟩, hk2⟩, htid2⟩
    exact hnot ⟨r2, hr2, hst2, hk2, htid2⟩

theorem mem_reconcile_copy {local_db dest_db : Catalog} {fs : Option (BaseTrack → Bool)}
    {x : String} :
    x ∈ (reconcile local_db dest_db fs).1 ↔
      (∃ r ∈ local_db.tracks, keep fs r = true ∧ r.track_id = x) ∧
        local_db.isCopied x ∧ ¬dest_db.isCopied x := by
  simp only [reconcile, filter_tracks_by_id, List.mem_map, mem_filter_tracks_keep,
    mem_tracks_by_id, mem_db_diff]
  constructor
  · rintro ⟨r, ⟨⟨hr, hS, hD⟩, hk⟩, rfl⟩
    exact ⟨⟨r, hr, hk, rfl⟩, hS, hD⟩
  · rintro ⟨⟨r, hr, hk, rfl⟩, hS, hD⟩
    exact ⟨r, ⟨⟨hr, hS, hD⟩, hk⟩, rfl⟩

theorem mem_reconcile_delete {local_db dest_db : Catalog} {fs : Option (BaseTrack → Bool)}
    {x : String} :
    x ∈ (reconcile local_db dest_db fs).2 ↔
      (dest_db.isCopied x ∧ ¬local_db.isCopied x) ∨
        (dest_db.isCopied x ∧ ¬local_db.isKeptCopied fs x) := by
  simp [reconcile, List.mem_append, mem_db_diff, mem_diff_databases]

/-! ## Traces and state of a fully successful run -/

theorem foldl_trace_ok (step : Track → List Event) (tracks : List Track) :
    ∀ acc : List Event,
      tracks.foldl (fun acc track => if acc.2 then (acc.1 ++ step track, true) else acc)
        (acc, true) = (acc ++ (tracks.map step).flatten, true) := by
  induction tracks with
  | nil => intro acc; simp
  | cons t ts ih =>
    intro acc
    simp only [List.foldl_cons, List.map_cons, List.flatten_cons]
    have h := ih (acc ++ step t)
    simpa [List.append_assoc] using h

theorem run_delete_all_ok (db : Catalog) (dir : String) (ids : List String)
    (fs : Option (BaseTrack → Bool)) :
    Sync.run_delete db dir ids fs (fun _ => true) =
      (((db.tracks_by_id ids).map
        (fun t => [Event.dbDelete t.id, Event.fsRemove (t.storage_path dir)])).flatten, true) := by
  unfold Sync.run_delete
  rw [filter_tracks_delete]
  have h := foldl_trace_ok
    (fun t => [Event.dbDelete t.id, Event.fsRemove (t.storage_path dir)])
    (db.tracks_by_id ids) []
  simpa [Sync.delete] using h

theorem run_copy_all_ok (db : Catalog) (dir : String) (ids : List String)
    (fs : Option (BaseTrack → Bool)) (link : Bool) :
    Sync.run_copy db dir ids fs link (fun _ => CopyOutcome.success) =
      (((filter_tracks (db.tracks_by_id ids) fs false).map
        (fun t => (Sync.copy t dir link CopyOutcome.success).1)).flatten, true) := by
  unfold Sync.run_copy
  have h := foldl_trace_ok
    (fun t => (Sync.copy t dir link CopyOutcome.success).1)
    (filter_tracks (db.tracks_by_id ids) fs false) []
  simpa using h

theorem sync_run_all_ok (local_db dest_db : Catalog) (dir : String)
    (fs : Option (BaseTrack → Bool)) (link : Bool) :
    Sync.run local_db dest_db dir fs false link (fun _ => true) (fun _ => CopyOutcome.success) =
      (((dest_db.tracks_by_id (reconcile local_db dest_db fs).2).map
          (fun t => [Event.dbDelete t.id, Event.fsRemove (t.storage_path dir)])).flatten ++
        ((filter_tracks (local_db.tracks_by_id (reconcile local_db dest_db fs).1) fs false).map
          (fun t => (Sync.copy t dir link CopyOutcome.success).1)).flatten, true) := by
  simp only [Sync.run, reconcile, Bool.false_eq_true, if_false, run_delete_all_ok,
    run_copy_all_ok, if_true]

theorem applyEvents_append (c : Catalog) (es1 es2 : List Event) :
    applyEvents c (es1 ++ es2) = applyEvents (applyEvents c es1) es2 := by
  simp [applyEvents, List.foldl_append]

theorem applyEvents_delete_trace (dir : String) (tracks : List Track) :
    ∀ c : Catalog,
      applyEvents c
          ((tracks.map (fun t => [Event.dbDelete t.id, Event.fsRemove (t.storage_path dir)])).flatten)
        = tracks.foldl (fun c t => Catalog.delete c t.id) c := by
  induction tracks with
  | nil => intro c; rfl
  | cons t ts ih =>
    intro c
    simp only [List.map_cons, List.flatten_cons, List.foldl_cons]
    rw [applyEvents_append]
    exact ih _

theorem applyEvents_copy_trace (dir : String) (link : Bool) (tracks : List Track) :
    ∀ c : Catalog,
      applyEvents c ((tracks.map (fun t => (Sync.copy t dir link CopyOutcome.success).1)).flatten)
        = tracks.foldl (fun c t =>
            (c.insert_track { t with file_state := FileState.Copying }).insert_track
              { t with file_state := FileState.Copied }) c := by
  induction tracks with
  | nil => intro c; rfl
  | cons t ts ih =>
    intro c
    simp only [List.map_cons, List.flatten_cons, List.foldl_cons]
    rw [applyEvents_append]
    exact ih _

theorem mem_delete_foldl {tracks : List Track} {c : Catalog} {r : Track} :
    r ∈ (tracks.foldl (fun c t => Catalog.delete c t.id) c).tracks ↔
      r ∈ c.tracks ∧ ∀ t ∈ tracks, r.id ≠ t.id := by
  induction tracks generalizing c with
  | nil => simp
  | cons t ts ih =>
    simp only [List.foldl_cons]
    rw [ih]
    simp only [Catalog.delete, List.mem_filter, decide_eq_true_eq, List.mem_cons,
      forall_eq_or_imp]
    tauto

theorem insert_pair_tracks (c : Catalog) (t : Track) :
    ((c.insert_track { t with file_state := FileState.Copying }).insert_track
        { t with file_state := FileState.Copied }).tracks =
      c.tracks.filter (fun r => r.track_id != t.track_id) ++
        [{ t with file_state := FileState.Copied }] := by
  simp [Catalog.insert_track, List.filter_append, List.filter_filter]

theorem isCopied_insert_pair {c : Catalog} {t : Track} {x : String} :
    ((c.insert_track { t with file_state := FileState.Copying }).insert_track
      { t with file_state := FileState.Copied }).isCopied x ↔ t.track_id = x ∨ c.isCopied x := by
  simp only [Catalog.isCopied, insert_pair_tracks, List.mem_append, List.mem_filter,
    bne_iff_ne, ne_eq, List.mem_singleton]
  constructor
  · rintro ⟨r, hr, hst, rfl⟩
    rcases hr with ⟨hrc, _⟩ | rfl
    · exact Or.inr ⟨r, hrc, hst, rfl⟩
    · exact Or.inl rfl
  · rintro (rfl | ⟨r, hrc, hst, rfl⟩)
    · exact ⟨{ t with file_state := FileState.Copied }, Or.inr rfl, rfl, rfl⟩
    · by_cases hx : t.track_id = r.track_id
      · exact ⟨{ t with file_state := FileState.Copied }, Or.inr rfl, rfl, hx⟩
      · exact ⟨r, Or.inl ⟨hrc, fun h => hx h.symm⟩, hst, rfl⟩

theorem isCopied_copy_foldl {tracks : List Track} {c : Catalog} {x : String} :
    (tracks.foldl (fun c t =>
        (c.insert_track { t with file_state := FileState.Copying }).insert_track
          { t with file_state := FileState.Copied }) c).isCopied x ↔
      c.isCopied x ∨ ∃ t ∈ tracks, t.track_id = x := by
  induction tracks generalizing c with
  | nil => simp
  | cons t ts ih =>
    simp only [List.foldl_cons, ih, isCopied_insert_pair, List.mem_cons]
    constructor
    · rintro ((rfl | hc) | ⟨t2, ht2, rfl⟩)
      · exact Or.inr ⟨t, Or.inl rfl, rfl⟩
      · exact Or.inl hc
      · exact Or.inr ⟨t2, Or.inr ht2, rfl⟩
    · rintro (hc | ⟨t2, (rfl | ht2), rfl⟩)
      · exact Or.inl (Or.inr hc)
      · exact Or.inl (Or.inl rfl)
      · exact Or.inr ⟨t2, ht2, rfl⟩

/-- Central characterization of the destination's `Copied` set after a
fully successful sync run: a track id is `Copied` afterwards exactly when
it was in the copy list, or it was `Copied` before and not in the delete
list.  Requires only that the destination's surrogate keys are unique. -/
theorem sync_state_isCopied (local_db dest_db : Catalog) (dir : String)
    (fs : Option (BaseTrack → Bool)) (link : Bool) (hdest : dest_db.wfLocalIds) (x : String) :
    (applyEvents dest_db
        (Sync.run local_db dest_db dir fs false link (fun _ => true)
          (fun _ => CopyOutcome.success)).1).isCopied x ↔
      x ∈ (reconcile local_db dest_db fs).1 ∨
        (dest_db.isCopied x ∧ x ∉ (reconcile local_db dest_db fs).2) := by
  rw [sync_run_all_ok, applyEvents_append, applyEvents_delete_trace, applyEvents_copy_trace,
    isCopied_copy_foldl]
  have hcopy : (∃ t ∈ filter_tracks
      (local_db.tracks_by_id (reconcile local_db dest_db fs).1) fs false, t.track_id = x) ↔
      x ∈ (reconcile local_db dest_db fs).1 := by
    constructor
    · rintro ⟨t, ht, rfl⟩
      rcases mem_filter_tracks_keep.mp ht with ⟨hin, _⟩
      exact (mem_tracks_by_id.mp hin).2
    · intro hx
      rcases mem_reconcile_copy.mp hx with ⟨⟨r, hr, hk, htid⟩, _, _⟩
      refine ⟨r, mem_filter_tracks_keep.mpr ⟨mem_tracks_by_id.mpr ⟨hr, ?_⟩, hk⟩, htid⟩
      rw [htid]; exact hx
  have hdel : ((dest_db.tracks_by_id (reconcile local_db dest_db fs).2).foldl
      (fun c t => Catalog.delete c t.id) dest_db).isCopied x ↔
      dest_db.isCopied x ∧ x ∉ (reconcile local_db dest_db fs).2 := by
    constructor
    · rintro ⟨r, hr, hst, rfl⟩
      rcases mem_delete_foldl.mp hr with ⟨hrd, hsurv⟩
      refine ⟨⟨r, hrd, hst, rfl⟩, fun hx => ?_⟩
      exact hsurv r (mem_tracks_by_id.mpr ⟨hrd, hx⟩) rfl
    · rintro ⟨⟨r, hrd, hst, htid⟩, hnot⟩
      refine ⟨r, mem_delete_foldl.mpr ⟨hrd, fun t ht hid => ?_⟩, hst, htid⟩
      rcases mem_tracks_by_id.mp ht with ⟨htd, htid2⟩
      have : r = t := List.inj_on_of_nodup_map hdest hrd htd hid
      exact hnot (by rw [← htid, this]; exact htid2)
  rw [hcopy, hdel]
  tauto

/-! ## Event-kind lemmas for the temporal claims -/

theorem isDeleteKind_not_copyKind {e : Event} (h : e.isDeleteKind = true) :
    e.isCopyKind = false := by
  cases e <;> simp_all [Event.isDeleteKind, Event.isCopyKind]

theorem foldl_events_kind (step : Track → List Event)
    {g : List Event × Bool → Track → List Event × Bool}
    (hg : ∀ acc t e, e ∈ (g acc t).1 → e ∈ acc.1 ∨ e ∈ step t)
    (P : Event → Bool) (hstep : ∀ t, ∀ e ∈ step t, P e = true) :
    ∀ (tracks : List Track) (acc : List Event × Bool), (∀ e ∈ acc.1, P e = true) →
      ∀ e ∈ (tracks.foldl g acc).1, P e = true := by
  intro tracks
  induction tracks with
  | nil => intro acc hacc; exact hacc
  | cons t ts ih =>
    intro acc hacc
    simp only [List.foldl_cons]
    apply ih
    intro e he
    rcases hg acc t e he with h | h
    · exact hacc e h
    · exact hstep t e h

theorem run_delete_events_kind (db : Catalog) (dir : String) (ids : List String)
    (fs : Option (BaseTrack → Bool)) (removeOk : Track → Bool) :
    ∀ e ∈ (Sync.run_delete db dir ids fs removeOk).1, e.isDeleteKind = true := by
  unfold Sync.run_delete
  apply foldl_events_kind
    (fun t => [Event.dbDelete t.id, Event.fsRemove (t.storage_path dir)])
  · intro acc t e he
    by_cases h2 : acc.2
    · rw [if_pos h2] at he
      exact List.mem_append.mp (by simpa [Sync.delete] using he)
    · rw [if_neg h2] at he
      exact Or.inl he
  · intro t
    simp [List.forall_mem_cons, Event.isDeleteKind]
  · intro e he
    cases he

theorem copy_events_kind (t : Track) (dir : String) (link : Bool) (out : CopyOutcome) :
    ∀ e ∈ (Sync.copy t dir link out).1, e.isCopyKind = true := by
  cases out <;> simp [Sync.copy, List.forall_mem_cons, Event.isCopyKind]

theorem run_copy_events_kind (db : Catalog) (dir : String) (ids : List String)
    (fs : Option (BaseTrack → Bool)) (link : Bool) (outcome : Track → CopyOutcome) :
    ∀ e ∈ (Sync.run_copy db dir ids fs link outcome).1, e.isCopyKind = true := by
  unfold Sync.run_copy
  apply foldl_events_kind (fun t => (Sync.copy t dir link (outcome t)).1)
  · intro acc t e he
    by_cases h2 : acc.2
    · rw [if_pos h2] at he
      exact List.mem_append.mp (by simpa using he)
    · rw [if_neg h2] at he
      exact Or.inl he
  · intro t e he
    exact copy_events_kind t dir link (outcome t) e he
  · intro e he
    cases he

/-! ## Claim C3: two-phase marker discipline of one copy transition -/

/-- C3: in one copy transition the Copying upsert is the very first event
(in particular before the content duplication), the Copied upsert occurs in
the trace exactly when the content copy succeeded, the returned flag
equals success, and on any failure the applied destination state still
holds the Copying row. -/
theorem C3_copy_two_phase (track : Track) (dir : String) (link : Bool)
    (outcome : CopyOutcome) (dest_db : Catalog) :
    (Sync.copy track dir link outcome).1.head? =
        some (Event.dbUpsert { track with file_state := FileState.Copying }) ∧
      (∀ src dst l i, (Sync.copy track dir link outcome).1.get? i =
          some (Event.fsCopy src dst l) → 0 < i) ∧
      (Event.dbUpsert { track with file_state := FileState.Copied } ∈
          (Sync.copy track dir link outcome).1 ↔ outcome = CopyOutcome.success) ∧
      ((Sync.copy track dir link outcome).2 = true ↔ outcome = CopyOutcome.success) ∧
      (outcome ≠ CopyOutcome.success →
        { track with file_state := FileState.Copying } ∈
          (applyEvents dest_db (Sync.copy track dir link outcome).1).tracks) := by
  cases outcome with
  | success =>
    refine ⟨rfl, ?_, by simp [Sync.copy], by simp [Sync.copy], fun h => absurd rfl h⟩
    intro src dst l i h
    cases i with
    | zero => simp [Sync.copy] at h
    | succ n => exact Nat.succ_pos n
  | dirFail =>
    refine ⟨rfl, ?_, by simp [Sync.copy], by simp [Sync.copy], fun _ => ?_⟩
    · intro src dst l i h
      cases i with
      | zero => simp [Sync.copy] at h
      | succ n => exact Nat.succ_pos n
    · simp [Sync.copy, applyEvents, applyEvent, Catalog.insert_track]
  | openFail =>
    refine ⟨rfl, ?_, by simp [Sync.copy], by simp [Sync.copy], fun _ => ?_⟩
    · intro src dst l i h
      cases i with
      | zero => simp [Sync.copy] at h
      | succ n => exact Nat.succ_pos n
    · simp [Sync.copy, applyEvents, applyEvent, Catalog.insert_track]
  | copyFail =>
    refine ⟨rfl, ?_, by simp [Sync.copy], by simp [Sync.copy], fun _ => ?_⟩
    · intro src dst l i h
      cases i with
      | zero => simp [Sync.copy] at h
      | succ n => exact Nat.succ_pos n
    · simp [Sync.copy, applyEvents, applyEvent, Catalog.insert_track]

/-- Witness for C3 at a concrete failing copy: the trace starts with the
Copying upsert, holds no Copied upsert, reports failure, and the applied
state retains the Copying row. -/
theorem C3_copy_two_phase_witness :
    (Sync.copy (exTrack 2 "b" FileState.Copied) "/dst" false CopyOutcome.copyFail).1.head? =
        some (Event.dbUpsert { exTrack 2 "b" FileState.Copied with
          file_state := FileState.Copying }) ∧
      ((Sync.copy (exTrack 2 "b" FileState.Copied) "/dst" false CopyOutcome.copyFail).2 = true ↔
        CopyOutcome.copyFail = CopyOutcome.success) ∧
      { exTrack 2 "b" FileState.Copied with file_state := FileState.Copying } ∈
        (applyEvents exDest
          (Sync.copy (exTrack 2 "b" FileState.Copied) "/dst" false
            CopyOutcome.copyFail).1).tracks := by
  have h := C3_copy_two_phase (exTrack 2 "b" FileState.Copied) "/dst" false
    CopyOutcome.copyFail exDest
  exact ⟨h.1, h.2.2.2.1, h.2.2.2.2 (by decide)⟩

/-! ## Claim C10: deletions complete before copies begin -/

/-- C10: in every non-dry-run sync with deletions enabled, every event of a
deletion transition comes strictly before every event of a copy transition
in the run's trace, whatever the per-track outcomes are. -/
theorem C10_deletes_before_copies (local_db dest_db : Catalog) (dir : String)
    (fs : Option (BaseTrack → Bool)) (link : Bool) (removeOk : Track → Bool)
    (outcome : Track → CopyOutcome) (i j : Nat) (ei ej : Event)
    (hi : (Sync.run local_db dest_db dir fs false link removeOk outcome).1.get? i = some ei)
    (hj : (Sync.run local_db dest_db dir fs false link removeOk outcome).1.get? j = some ej)
    (hdel : ei.isDeleteKind = true) (hcopy : ej.isCopyKind = true) : i < j := by
  simp only [Sync.run, Bool.false_eq_true, if_false] at hi hj
  by_cases h2 : (Sync.run_delete dest_db dir
      (Db.diff dest_db local_db ++ diff_databases local_db dest_db fs false) fs removeOk).2
  · rw [if_pos h2] at hi hj
    simp only at hi hj
    have hilt : i < (Sync.run_delete dest_db dir
        (Db.diff dest_db local_db ++ diff_databases local_db dest_db fs false) fs
        removeOk).1.length := by
      by_contra hge
      push_neg at hge
      rw [List.get?_append_right hge] at hi
      have hmem := List.get?_mem hi
      have := run_copy_events_kind local_db dir _ fs link outcome ei hmem
      rw [isDeleteKind_not_copyKind hdel] at this
      cases this
    have hjge : (Sync.run_delete dest_db dir
        (Db.diff dest_db local_db ++ diff_databases local_db dest_db fs false) fs
        removeOk).1.length ≤ j := by
      by_contra hlt
      push_neg at hlt
      rw [List.get?_append hlt] at hj
      have hmem := List.get?_mem hj
      have := run_delete_events_kind dest_db dir _ fs removeOk ej hmem
      rw [isDeleteKind_not_copyKind this] at hcopy
      cases hcopy
    omega
  · rw [if_neg h2] at hj
    have hmem := List.get?_mem hj
    have := run_delete_events_kind dest_db dir _ fs removeOk ej hmem
    rw [isDeleteKind_not_copyKind this] at hcopy
    cases hcopy

/-- Witness for C10: in the concrete run's trace, index 0 holds a deletion
event, index 2 a copy event, and 0 < 2. -/
theorem C10_deletes_before_copies_witness :
    (Sync.run exLocal exDest "/dst" none false false (fun _ => true)
        (fun _ => CopyOutcome.success)).1.get? 0 = some (Event.dbDelete 2) ∧
      (Sync.run exLocal exDest "/dst" none false false (fun _ => true)
        (fun _ => CopyOutcome.success)).1.get? 2 =
        some (Event.dbUpsert { exTrack 2 "b" FileState.Copied with
          file_state := FileState.Copying }) ∧
      (Event.dbDelete 2).isDeleteKind = true ∧
      (Event.dbUpsert { exTrack 2 "b" FileState.Copied with
        file_state := FileState.Copying }).isCopyKind = true ∧ 0 < 2 :=
  ⟨by decide, by decide, by decide, by decide,
    C10_deletes_before_copies exLocal exDest "/dst" none false (fun _ => true)
      (fun _ => CopyOutcome.success) 0 2 (Event.dbDelete 2)
      (Event.dbUpsert { exTrack 2 "b" FileState.Copied with file_state := FileState.Copying })
      (by decide) (by decide) (by decide) (by decide)⟩

/-! ## Claim C2: reconciliation completeness without a filter -/

/-- C2: for every source catalog with Copied-state track-id set S and
destination catalog with Copied-state track-id set D, when no filter is
configured, one complete sync run (deletions plus copies, not dry-run, not
no-delete) leaves the destination's Copied-state track-id set equal to S
exactly. -/
theorem C2_sync_completeness (local_db dest_db : Catalog) (dir : String) (link : Bool)
    (hdest : dest_db.wfLocalIds) :
    ((applyEvents dest_db
        (Sync.run local_db dest_db dir none false link (fun _ => true)
          (fun _ => CopyOutcome.success)).1).track_ids_by_state FileState.Copied).toFinset =
      (local_db.track_ids_by_state FileState.Copied).toFinset := by
  ext x
  simp only [List.mem_toFinset]
  rw [← isCopied_iff_mem, ← isCopied_iff_mem,
    sync_state_isCopied local_db dest_db dir none link hdest x,
    mem_reconcile_copy, mem_reconcile_delete]
  have hkept : local_db.isKeptCopied none x ↔ local_db.isCopied x := by
    simp [Catalog.isKeptCopied, Catalog.isCopied, keep]
  rw [hkept]
  constructor
  · rintro (⟨_, hS, _⟩ | ⟨hD, hn⟩)
    · exact hS
    · by_contra hS
      exact hn (Or.inl ⟨hD, hS⟩)
  · intro hS
    by_cases hD : dest_db.isCopied x
    · refine Or.inr ⟨hD, ?_⟩
      rintro (⟨_, h⟩ | ⟨_, h⟩) <;> exact h hS
    · refine Or.inl ⟨?_, hS, hD⟩
      rcases hS with ⟨r, hr, _, htid⟩
      exact ⟨r, hr, rfl, htid⟩

/-- Witness for C2 at the concrete catalogs: source {a, b}, destination
{a, c}; after the run the destination's Copied set is {a, b}. -/
theorem C2_sync_completeness_witness :
    exDest.wfLocalIds ∧
      ((applyEvents exDest
        (Sync.run exLocal exDest "/dst" none false false (fun _ => true)
          (fun _ => CopyOutcome.success)).1).track_ids_by_state FileState.Copied).toFinset =
      (exLocal.track_ids_by_state FileState.Copied).toFinset :=
  ⟨by decide, C2_sync_completeness exLocal exDest "/dst" false (by decide)⟩

/-! ## Claim C5: filter exclusion -/

/-- C5: a source track whose filter predicate evaluates to exclude never has
its id in the final copy set of a reconciliation; and if a track with that
id is Copied in the destination, the id is in the delete set of the next
reconciliation. -/
theorem C5_filter_exclusion (local_db dest_db : Catalog) (f : BaseTrack → Bool) (r : Track)
    (hl : local_db.wfTrackIds) (hr : r ∈ local_db.tracks) (hex : f r.toBase = true) :
    r.track_id ∉ (reconcile local_db dest_db (some f)).1 ∧
      (dest_db.isCopied r.track_id → r.track_id ∈ (reconcile local_db dest_db (some f)).2) := by
  constructor
  · intro hmem
    rcases mem_reconcile_copy.mp hmem with ⟨⟨r2, hr2, hk2, htid2⟩, _, _⟩
    have hrr : r2 = r := List.inj_on_of_nodup_map hl hr2 hr htid2
    rw [hrr] at hk2
    simp [keep, hex] at hk2
  · intro hD
    rw [mem_reconcile_delete]
    by_cases hS : local_db.isCopied r.track_id
    · refine Or.inr ⟨hD, ?_⟩
      rintro ⟨r2, hr2, _, hk2, htid2⟩
      have hrr : r2 = r := List.inj_on_of_nodup_map hl hr2 hr htid2
      rw [hrr] at hk2
      simp [keep, hex] at hk2
    · exact Or.inl ⟨hD, hS⟩

/-- Witness for C5: track b is excluded by the filter; its id is not copied
and, being Copied in the destination, lands in the delete set. -/
theorem C5_filter_exclusion_witness :
    exLocal.wfTrackIds ∧ exTrack 2 "b" FileState.Copied ∈ exLocal.tracks ∧
      exFilter (exTrack 2 "b" FileState.Copied).toBase = true ∧
      ((exTrack 2 "b" FileState.Copied).track_id ∉ (reconcile exLocal exDest2 (some exFilter)).1 ∧
        (exDest2.isCopied (exTrack 2 "b" FileState.Copied).track_id →
          (exTrack 2 "b" FileState.Copied).track_id ∈
            (reconcile exLocal exDest2 (some exFilter)).2)) :=
  ⟨by decide, by decide, by decide,
    C5_filter_exclusion exLocal exDest2 exFilter (exTrack 2 "b" FileState.Copied)
      (by decide) (by decide) (by decide)⟩

/-! ## Claim C6: idempotence of reconciliation after a completed sync -/

/-- C6: for every pair of catalogs and every fixed filter policy, running
reconciliation again immediately after a completed sync, with no
intervening change, yields an empty copy set and an empty delete set. -/
theorem C6_reconcile_idempotent (local_db dest_db : Catalog) (dir : String) (link : Bool)
    (fs : Option (BaseTrack → Bool)) (hl : local_db.wfTrackIds) (hdest : dest_db.wfLocalIds) :
    reconcile local_db
      (applyEvents dest_db
        (Sync.run local_db dest_db dir fs false link (fun _ => true)
          (fun _ => CopyOutcome.success)).1) fs = ([], []) := by
  have hD' : ∀ x,
      (applyEvents dest_db
        (Sync.run local_db dest_db dir fs false link (fun _ => true)
          (fun _ => CopyOutcome.success)).1).isCopied x ↔ local_db.isKeptCopied fs x := by
    intro x
    rw [sync_state_isCopied local_db dest_db dir fs link hdest x]
    constructor
    · rintro (hx | ⟨hD, hn⟩)
      · rcases mem_reconcile_copy.mp hx with ⟨⟨r, hr, hk, htid⟩, hS, _⟩
        rcases hS with ⟨r2, hr2, hst2, htid2⟩
        have hrr : r = r2 :=
          List.inj_on_of_nodup_map hl hr hr2 (by rw [htid, htid2])
        exact ⟨r, hr, by rw [hrr]; exact hst2, hk, htid⟩
      · by_contra hkept
        exact hn (mem_reconcile_delete.mpr (Or.inr ⟨hD, hkept⟩))
    · rintro hkc
      rcases hkc with ⟨r, hr, hst, hk, htid⟩
      by_cases hD : dest_db.isCopied x
      · refine Or.inr ⟨hD, fun hx => ?_⟩
        rcases mem_reconcile_delete.mp hx with ⟨_, hnS⟩ | ⟨_, hnK⟩
        · exact hnS ⟨r, hr, hst, htid⟩
        · exact hnK ⟨r, hr, hst, hk, htid⟩
      · exact Or.inl (mem_reconcile_copy.mpr ⟨⟨r, hr, hk, htid⟩, ⟨r, hr, hst, htid⟩, hD⟩)
  have h1 : (reconcile local_db
      (applyEvents dest_db
        (Sync.run local_db dest_db dir fs false link (fun _ => true)
          (fun _ => CopyOutcome.success)).1) fs).1 = [] := by
    rw [List.eq_nil_iff_forall_not_mem]
    intro x hx
    rcases mem_reconcile_copy.mp hx with ⟨⟨r, hr, hk, htid⟩, hS, hD'x⟩
    rcases hS with ⟨r2, hr2, hst2, htid2⟩
    have hrr : r = r2 := List.inj_on_of_nodup_map hl hr hr2 (by rw [htid, htid2])
    exact hD'x ((hD' x).mpr ⟨r, hr, by rw [hrr]; exact hst2, hk, htid⟩)
  have h2 : (reconcile local_db
      (applyEvents dest_db
        (Sync.run local_db dest_db dir fs false link (fun _ => true)
          (fun _ => CopyOutcome.success)).1) fs).2 = [] := by
    rw [List.eq_nil_iff_forall_not_mem]
    intro x hx
    rcases mem_reconcile_delete.mp hx with ⟨hd2, hnS⟩ | ⟨hd2, hnK⟩
    · rcases (hD' x).mp hd2 with ⟨r, hr, hst, _, htid⟩
      exact hnS ⟨r, hr, hst, htid⟩
    · exact hnK ((hD' x).mp hd2)
  exact Prod.ext h1 h2

/-- Witness for C6: after the sync of the concrete catalogs under the
concrete filter, a second reconciliation yields two empty sets. -/
theorem C6_reconcile_idempotent_witness :
    exLocal.wfTrackIds ∧ exDest.wfLocalIds ∧
      reconcile exLocal
        (applyEvents exDest
          (Sync.run exLocal exDest "/dst" (some exFilter) false false (fun _ => true)
            (fun _ => CopyOutcome.success)).1) (some exFilter) = ([], []) :=
  ⟨by decide, by decide,
    C6_reconcile_idempotent exLocal exDest "/dst" false (some exFilter) (by decide) (by decide)⟩

end Tracksync
